import Mathlib

set_option autoImplicit false

/-!
Shallow embedding of the execution-control and source-level stepping engine
in `proc/threads.go`: the resume/step dispatch (`threadResume`), breakpoint
resolution and hit counting (`SetCurrentBreakpoint`), and the step-over
planner (`setNextBreakpoints`, `next`, `cnext`, `setNextTempBreakpoints`).

External collaborators (debug-info provider, registers, goroutine decoder,
temp-breakpoint installer) are modelled as explicit oracle records; the
process-wide breakpoint table is an explicit address-keyed association list
threaded through each operation.  Go `uint64` arithmetic is `Nat` with
explicit wrap-around where a subtraction can underflow.
-/

/-- Modulus of the Go type `uint64` used for program counters. -/
def U64LIM : Nat := 18446744073709551616

/-- Subtraction with Go `uint64` wrap-around semantics (`a - b` on `uint64`). -/
def u64sub (a b : Nat) : Nat := (a + (U64LIM - b % U64LIM)) % U64LIM

/-- Error payload produced by external collaborators (registers, memory,
debug info).  Its content is never inspected by the code embedded here. -/
abbrev Err := String

/-- The fields of the `Breakpoint` struct that the code in `threads.go`
reads or writes: address, source position, originating function name, the
`Temp` flag and the two hit counters.  `HitCount` is the Go map from
goroutine id to count, embedded as an association list. -/
structure Breakpoint where
  Addr : Nat
  File : String
  Line : Int
  FunctionName : String
  Temp : Bool
  HitCount : List (Int × Nat)
  TotalHitCount : Nat
deriving DecidableEq

/-- The process-wide address-keyed breakpoint table
(`dbp.Breakpoints : map[uint64]*Breakpoint`). -/
abbrev BpTable := List (Nat × Breakpoint)

/-- Go map read with zero default (`m[k]` on a `map[int]uint64`). -/
def hmGet (m : List (Int × Nat)) (k : Int) : Nat :=
  match m with
  | [] => 0
  | kv :: rest => if kv.1 = k then kv.2 else hmGet rest k

/-- Removal of a key from the goroutine-id-keyed counter map. -/
def hmErase (m : List (Int × Nat)) (k : Int) : List (Int × Nat) :=
  match m with
  | [] => []
  | kv :: rest => if kv.1 = k then hmErase rest k else kv :: hmErase rest k

/-- Go map increment `m[k]++` (missing key reads as zero). -/
def hmInc (m : List (Int × Nat)) (k : Int) : List (Int × Nat) :=
  (k, hmGet m k + 1) :: hmErase m k

/-- Lookup in the breakpoint table (`bp, ok := dbp.Breakpoints[k]`). -/
def bpLookup (tbl : BpTable) (k : Nat) : Option Breakpoint :=
  match tbl with
  | [] => none
  | kv :: rest => if kv.1 = k then some kv.2 else bpLookup rest k

/-- Key removal from the breakpoint table (`delete(dbp.Breakpoints, k)`). -/
def bpErase (tbl : BpTable) (k : Nat) : BpTable :=
  match tbl with
  | [] => []
  | kv :: rest => if kv.1 = k then bpErase rest k else kv :: bpErase rest k

/-- Key assignment in the breakpoint table (`dbp.Breakpoints[k] = bp`). -/
def bpInsert (tbl : BpTable) (k : Nat) (v : Breakpoint) : BpTable :=
  (k, v) :: bpErase tbl k

/-- In-place mutation of the table entry at `k`, modelling a write through
the `*Breakpoint` pointer stored in the table. -/
def bpUpdate (tbl : BpTable) (k : Nat) (f : Breakpoint → Breakpoint) : BpTable :=
  match tbl with
  | [] => []
  | kv :: rest =>
    if kv.1 = k then (kv.1, f kv.2) :: bpUpdate rest k f
    else kv :: bpUpdate rest k f

/-- The write `thread.CurrentBreakpoint.HitCount[gid]++` through the table
entry at key `k`. -/
def bpBumpHit (tbl : BpTable) (k : Nat) (gid : Int) : BpTable :=
  bpUpdate tbl k (fun b => { b with HitCount := hmInc b.HitCount gid })

/-- The write `thread.CurrentBreakpoint.TotalHitCount++` through the table
entry at key `k`. -/
def bpBumpTotal (tbl : BpTable) (k : Nat) : BpTable :=
  bpUpdate tbl k (fun b => { b with TotalHitCount := b.TotalHitCount + 1 })

/-- Total hit counter of the table entry at `k` (zero when absent). -/
def totalOf (tbl : BpTable) (k : Nat) : Nat :=
  match bpLookup tbl k with
  | some b => b.TotalHitCount
  | none => 0

/-- Per-goroutine hit counter of the table entry at `k` (zero when absent). -/
def hitOf (tbl : BpTable) (k : Nat) (gid : Int) : Nat :=
  match bpLookup tbl k with
  | some b => hmGet b.HitCount gid
  | none => 0

/-- Outcome of one call to the external temp-breakpoint installer
`dbp.SetTempBreakpoint`: failure is either `BreakpointExistsError` or some
infrastructure error. -/
inductive InstallErr where
  | bpExists
  | other (e : Err)
deriving DecidableEq

/-- Errors surfaced by the stepping engine: its own
`ThreadBlockedError` and `GoroutineExitingError`, a propagated
`BreakpointExistsError`, and propagated infrastructure errors. -/
inductive NErr where
  | threadBlocked
  | goroutineExiting (goid : Int)
  | breakpointTaken
  | infra (e : Err)
deriving DecidableEq

/-- Propagation of an installer error out of `next` (the deferred-call
install site returns the installer's error unwrapped). -/
def installErrToNErr : InstallErr → NErr
  | InstallErr.bpExists => NErr.breakpointTaken
  | InstallErr.other e => NErr.infra e

/-- The zero-value `new(Breakpoint)` used as the fake deferred-call entry. -/
def fakeBp : Breakpoint :=
  { Addr := 0, File := "", Line := 0, FunctionName := "", Temp := false,
    HitCount := [], TotalHitCount := 0 }

/-- A temporary breakpoint at address `a` as created by the installer. -/
def tempBpAt (a : Nat) : Breakpoint :=
  { Addr := a, File := "", Line := 0, FunctionName := "", Temp := true,
    HitCount := [], TotalHitCount := 0 }

/-- Modelled from the spec: `dbp.SetTempBreakpoint`, the temp-breakpoint
installer, is not part of `threads.go`; §6 of the spec describes it as the
installer that "returns `BreakpointExists` when already present".  It
inserts a temporary breakpoint at the given address into the table and
fails with `BreakpointExists` when the address is already occupied. -/
def setTempBreakpointModel (a : Nat) (tbl : BpTable) : Except InstallErr BpTable :=
  match bpLookup tbl a with
  | some _ => Except.error InstallErr.bpExists
  | none => Except.ok (bpInsert tbl a (tempBpAt a))

/-- Instrumentation installer: records every address the step-over planner
actually asks the installer to install, and never fails. -/
def logInst (a : Nat) (log : List Nat) : Except InstallErr (List Nat) :=
  Except.ok (log ++ [a])

/-- The goroutine handle fields used here (`G.ID`, `G.DeferPC`). -/
structure G where
  ID : Int
  DeferPC : Nat
deriving DecidableEq

/-- A function descriptor (`gosym.Func`); only its name is consulted. -/
structure Func where
  Name : String
deriving DecidableEq

/-- A thread location: program counter, source file and line, and the
(possibly absent) function descriptor. -/
structure Location where
  PC : Nat
  File : String
  Line : Int
  Fn : Option Func
deriving DecidableEq

/-- A frame descriptor (`frame.FrameDescriptionEntry`): the `Begin()` and
`End()` accessors and the `Cover` membership test, all external. -/
structure FDE where
  Begin : Nat
  End : Nat
  Cover : Nat → Bool

/-- Oracle record for the stepping engine's external collaborators: the
scheduler-blocked query, `thread.Location()`, the debug-info provider
(`FDEForPC`, `AllPCsBetween`, `PCToLine`, `LineToPC`, `PCToFunc`), the
goroutine resolver `GetG`, the stack unwinder's `ReturnAddress`, the
temp-breakpoint installer, and the platform's `int` bit width (32 or 64
depending on build target), which governs the wrap-around of the `lineno`
loop counter in `next`.  Oracles are pure: repeated calls within one
operation observe the same stopped thread. -/
structure Env where
  blocked : Bool
  locationOf : Except Err Location
  fdeForPC : Nat → Except Err FDE
  allPCsBetween : Nat → Nat → String → List Nat
  pcToLine : Nat → String × Int
  lineToPC : String → Int → Option Nat
  intWidth : Nat
  pcToFunc : Nat → Option Func
  getG : Except Err G
  returnAddress : Except Err Nat
  install : Nat → BpTable → Except InstallErr BpTable

/-- Smallest value of a `W`-bit Go `int` (two's complement). -/
def intMin (W : Nat) : Int := -(2 ^ (W - 1))

/-- Largest value of a `W`-bit Go `int` (two's complement). -/
def intMax (W : Nat) : Int := 2 ^ (W - 1) - 1

/-- The Go increment `lineno++` on a `W`-bit `int`: Go signed integers
wrap deterministically, so the maximum value steps to the minimum. -/
def intSucc (W : Nat) (v : Int) : Int :=
  if v = intMax W then intMin W else v + 1

/-- Membership of the representable range of a `W`-bit Go `int`. -/
def inRange (W : Nat) (v : Int) : Prop :=
  intMin W ≤ v ∧ v ≤ intMax W

instance (W : Nat) (v : Int) : Decidable (inRange W v) :=
  inferInstanceAs (Decidable (intMin W ≤ v ∧ v ≤ intMax W))

/-- Iterated wrapping increment: the value of `lineno` after `k` passes of
the loop body that started at `l`. -/
def iterSucc (W : Nat) : Nat → Int → Int
  | 0, l => l
  | k + 1, l => iterSucc W k (intSucc W l)

/-- The forward line-scan loop in `next`: starting at line `l`, repeatedly
run the wrapping Go-`int` increment `lineno++` and query `LineToPC` until
a valid PC is found.  The Go loop has no bound; `fuel` bounds the number
of probes in the embedding, and `none` means the loop has not terminated
within `fuel` iterations. -/
def scanLine (W : Nat) (L : String → Int → Option Nat) (f : String) :
    Int → Nat → Option Nat
  | _, 0 => none
  | l, fuel + 1 =>
    match L f (intSucc W l) with
    | some dpc => some dpc
    | none => scanLine W L f (intSucc W l) fuel

/-- The `setNextTempBreakpoints` loop: install a temp breakpoint at every
candidate PC, skipping the current PC and current PC minus one, swallowing
`BreakpointExists` from the installer and propagating any other installer
error.  It is polymorphic in the installer state so that the same code can
run against the breakpoint table or against the instrumentation log. -/
def setNextTempBreakpoints {σ : Type} (install : Nat → σ → Except InstallErr σ)
    (curpc : Nat) : List Nat → σ → Option NErr × σ
  | [], st => (none, st)
  | p :: rest, st =>
    if p = curpc ∨ p = u64sub curpc 1 then
      setNextTempBreakpoints install curpc rest st
    else
      match install p st with
      | Except.ok st1 => setNextTempBreakpoints install curpc rest st1
      | Except.error InstallErr.bpExists => setNextTempBreakpoints install curpc rest st
      | Except.error (InstallErr.other e) => (some (NErr.infra e), st)

/-- The goroutine-exit sentinel test `fn != nil && fn.Name == "runtime.goexit"`. -/
def isGoexit : Option Func → Bool
  | some fn => fn.Name == "runtime.goexit"
  | none => false

/-- The tail of `next` after the deferred-call handling: compute the return
address, test whether any collected candidate PC is covered by the current
frame, fail with `GoroutineExitingError` when the return address resolves
to `runtime.goexit` and nothing is covered, and otherwise append the
return address and install the temp breakpoints. -/
def nextRest (env : Env) (tbl : BpTable) (pcs : List Nat) (curpc : Nat)
    (fde : FDE) : Option NErr × BpTable :=
  match env.returnAddress with
  | Except.error e => (some (NErr.infra e), tbl)
  | Except.ok ret =>
    let covered := pcs.any fde.Cover
    if !covered && isGoexit (env.pcToFunc ret) then
      match env.getG with
      | Except.error e => (some (NErr.infra e), tbl)
      | Except.ok g => (some (NErr.goroutineExiting g.ID), tbl)
    else
      setNextTempBreakpoints env.install curpc (pcs ++ [ret]) tbl

/-- The `next` planner for Go source: collect the line-table PCs of the
frame (upper bound `fde.End()-1`), handle a pending deferred call by
scanning forward for the next valid line PC, installing a temp breakpoint
there and registering a fake table entry at the deferred-call PC that is
deleted again on every exit path, then run `nextRest`.  The result is
`none` when the forward line scan exceeds `fuel` (the Go loop is still
running). -/
def next (fuel : Nat) (env : Env) (tbl : BpTable) (curloc : Location)
    (fde : FDE) : Option (Option NErr × BpTable) :=
  let pcs := env.allPCsBetween fde.Begin (u64sub fde.End 1) curloc.File
  match env.getG with
  | Except.error e => some (some (NErr.infra e), tbl)
  | Except.ok g =>
    if g.DeferPC = 0 then
      some (nextRest env tbl pcs curloc.PC fde)
    else
      let fl := env.pcToLine g.DeferPC
      match scanLine env.intWidth env.lineToPC fl.1 fl.2 fuel with
      | none => none
      | some dpc =>
        let tbl1 := bpInsert tbl g.DeferPC fakeBp
        match env.install dpc tbl1 with
        | Except.error e =>
          some (some (installErrToNErr e), bpErase tbl1 g.DeferPC)
        | Except.ok tbl2 =>
          let r := nextRest env tbl2 pcs curloc.PC fde
          some (r.1, bpErase r.2 g.DeferPC)

/-- The `cnext` planner for non-Go source: collect the line-table PCs of
the frame (upper bound `fde.End()`), append the return address, and
install the temp breakpoints. -/
def cnext (env : Env) (tbl : BpTable) (curpc : Nat) (fde : FDE)
    (file : String) : Option NErr × BpTable :=
  let pcs := env.allPCsBetween fde.Begin fde.End file
  match env.returnAddress with
  | Except.error e => (some (NErr.infra e), tbl)
  | Except.ok ret =>
    setNextTempBreakpoints env.install curpc (pcs ++ [ret]) tbl

/-- The `filepath.Ext` call restricted to slash-separated paths: the suffix
of the last path element beginning at its final dot, empty when the last
element has no dot. -/
def fileExt (s : String) : String :=
  let base := (s.splitOn "/").getLastD ""
  let parts := base.splitOn "."
  if parts.length ≤ 1 then "" else "." ++ parts.getLastD ""

/-- The `setNextBreakpoints` dispatcher: fail with `ThreadBlockedError`
when the thread is parked in the scheduler, otherwise resolve the current
location and frame descriptor and dispatch on the source-file extension to
`next` or `cnext`. -/
def setNextBreakpoints (fuel : Nat) (env : Env) (tbl : BpTable) :
    Option (Option NErr × BpTable) :=
  if env.blocked then some (some NErr.threadBlocked, tbl)
  else
    match env.locationOf with
    | Except.error e => some (some (NErr.infra e), tbl)
    | Except.ok loc =>
      match env.fdeForPC loc.PC with
      | Except.error e => some (some (NErr.infra e), tbl)
      | Except.ok fde =>
        if fileExt loc.File = ".go" then next fuel env tbl loc fde
        else some (cnext env tbl loc.PC fde loc.File)

/-- Modelled from the spec: `bp.checkCondition` lives outside `threads.go`;
§7 of the spec fixes its contract: the condition result and error are both
reported, and "condition-evaluation error: stored on the breakpoint, never
thrown; treated as false for triggering purposes".  So an evaluation is
either true without error, false without error, or an error (reported as
false). -/
inductive CondResult where
  | ctrue
  | cfalse
  | cerror (e : Err)
deriving DecidableEq

/-- The boolean component of a `checkCondition` outcome. -/
def CondResult.met : CondResult → Bool
  | CondResult.ctrue => true
  | CondResult.cfalse => false
  | CondResult.cerror _ => false

/-- The error component of a `checkCondition` outcome. -/
def CondResult.errOf : CondResult → Option Err
  | CondResult.cerror e => some e
  | _ => none

/-- Oracle record for `SetCurrentBreakpoint`: the outcome of the `PC()`
register read, the architecture trap size `arch.BreakpointSize()`, the
outcome of the `SetPC` register write, the `checkCondition` outcome, and
the goroutine resolver `GetG`. -/
structure SCBEnv where
  pcReadErr : Option Err
  BreakpointSize : Nat
  setPCErr : Option Err
  cond : CondResult
  getG : Except Err G

/-- The `Thread` fields touched by `SetCurrentBreakpoint`: the hardware
program counter (read by `PC()`, written by `SetPC`), and the
breakpoint-related fields.  `CurrentBreakpoint` holds the table key of the
referenced `*Breakpoint` so that counter writes through it alias the table
entry, matching the Go pointer. -/
structure Thread where
  pc : Nat
  CurrentBreakpoint : Option Nat
  BreakpointConditionMet : Bool
  BreakpointConditionError : Option Err
deriving DecidableEq

/-- The predicate `onTriggeredBreakpoint`: a current breakpoint is present
and its condition evaluated true. -/
def onTriggeredBreakpoint (th : Thread) : Bool :=
  th.CurrentBreakpoint.isSome && th.BreakpointConditionMet

/-- The `SetCurrentBreakpoint` method: read the PC, look up `PC - trap
size` in the table; on a hit record the breakpoint, rewind the PC to its
address, store the condition outcome, and when triggered bump the
per-goroutine counter (skipped when `GetG` fails) and the total counter
through the table entry.  Returns the Go error result together with the
updated thread and table. -/
def SetCurrentBreakpoint (env : SCBEnv) (th : Thread) (tbl : BpTable) :
    Option Err × Thread × BpTable :=
  match env.pcReadErr with
  | some e => (some e, th, tbl)
  | none =>
    let key := u64sub th.pc env.BreakpointSize
    match bpLookup tbl key with
    | none => (none, th, tbl)
    | some bp =>
      let th1 := { th with CurrentBreakpoint := some key }
      match env.setPCErr with
      | some e => (some e, th1, tbl)
      | none =>
        let th2 := { th1 with
          pc := bp.Addr,
          BreakpointConditionMet := env.cond.met,
          BreakpointConditionError := env.cond.errOf }
        if onTriggeredBreakpoint th2 then
          let tblg :=
            match env.getG with
            | Except.ok g => bpBumpHit tbl key g.ID
            | Except.error _ => tbl
          (none, th2, bpBumpTotal tblg key)
        else
          (none, th2, tbl)

/-- The closed resume-mode enum. -/
inductive ResumeMode where
  | ModeResume
  | ModeStepInstruction
deriving DecidableEq

/-- Observable events of one `threadResume` call, in program order: the
trap bytes of the stopped-at breakpoint are cleared, the thread executes
(single step or continue-with-signal), and the deferred reinstatement of
the breakpoint runs. -/
inductive REvent where
  | clearTrap (addr : Nat)
  | stepInstr
  | resumeSig (sig : Int)
  | reinstall (addr : Nat)
deriving DecidableEq

/-- Oracle record for `threadResume`: outcomes of `bp.Clear`, of the
deferred `createAndWriteBreakpoint` reinstatement, of `singleStep`, and of
`resumeWithSig`. -/
structure REnv where
  clearErr : Option Err
  reinstallErr : Option Err
  stepErr : Option Err
  resumeErr : Option Err

/-- The `Thread` fields touched by `threadResume`.  `CurrentBreakpoint`
holds the breakpoint value the thread is stopped at. -/
structure ResumeThread where
  CurrentBreakpoint : Option Breakpoint
  BreakpointConditionMet : Bool
  BreakpointConditionError : Option Err
  running : Bool
  singleStepping : Bool
deriving DecidableEq

/-- The `threadResume` dispatch: when stopped at a breakpoint, clear its
trap (propagating a clear failure) and schedule its reinstatement for
every exit path; reset the transient breakpoint state and mark the thread
running; then single-step or continue by mode, with the single-step flags
restored on exit.  A reinstatement failure is only logged, so the
`reinstallErr` oracle cannot influence the returned value or the thread
state; the reinstatement attempt itself appears in the event trace. -/
def threadResume (env : REnv) (th : ResumeThread) (mode : ResumeMode)
    (sig : Int) : Option Err × ResumeThread × List REvent :=
  match th.CurrentBreakpoint with
  | some bp =>
    match env.clearErr with
    | some e => (some e, th, [])
    | none =>
      let th1 : ResumeThread :=
        { CurrentBreakpoint := none, BreakpointConditionMet := false,
          BreakpointConditionError := none, running := true,
          singleStepping := th.singleStepping }
      match mode with
      | ResumeMode.ModeStepInstruction =>
        let th3 := { th1 with singleStepping := false, running := false }
        (env.stepErr, th3,
          [REvent.clearTrap bp.Addr, REvent.stepInstr, REvent.reinstall bp.Addr])
      | ResumeMode.ModeResume =>
        (env.resumeErr, th1,
          [REvent.clearTrap bp.Addr, REvent.resumeSig sig, REvent.reinstall bp.Addr])
  | none =>
    let th1 : ResumeThread :=
      { CurrentBreakpoint := none, BreakpointConditionMet := false,
        BreakpointConditionError := none, running := true,
        singleStepping := th.singleStepping }
    match mode with
    | ResumeMode.ModeStepInstruction =>
      (env.stepErr, { th1 with singleStepping := false, running := false },
        [REvent.stepInstr])
    | ResumeMode.ModeResume =>
      (env.resumeErr, th1, [REvent.resumeSig sig])

/-- The execution event of a resume mode. -/
def resumeExecEvent : ResumeMode → Int → REvent
  | ResumeMode.ModeStepInstruction, _ => REvent.stepInstr
  | ResumeMode.ModeResume, sig => REvent.resumeSig sig

/-- The step's own outcome: what the selected primitive returned. -/
def resumeOutcome (env : REnv) : ResumeMode → Option Err
  | ResumeMode.ModeStepInstruction => env.stepErr
  | ResumeMode.ModeResume => env.resumeErr

/-- Concrete breakpoint used to exercise `SetCurrentBreakpoint`. -/
def bpW : Breakpoint :=
  { Addr := 100, File := "main.go", Line := 10, FunctionName := "main.main",
    Temp := false, HitCount := [(3, 5)], TotalHitCount := 9 }

/-- Concrete breakpoint table with one entry at address 100. -/
def tblW : BpTable := [(100, bpW)]

/-- Concrete oracle for `SetCurrentBreakpoint`: trap size 1, all register
operations succeed, the condition is true, the goroutine resolves to id 3. -/
def envSCBW : SCBEnv :=
  { pcReadErr := none, BreakpointSize := 1, setPCErr := none,
    cond := CondResult.ctrue, getG := Except.ok { ID := 3, DeferPC := 0 } }

/-- Concrete thread stopped one past the trap at address 100. -/
def thW : Thread :=
  { pc := 101, CurrentBreakpoint := none, BreakpointConditionMet := false,
    BreakpointConditionError := none }

/-- Concrete thread whose PC minus trap size misses the table. -/
def thMiss : Thread :=
  { pc := 555, CurrentBreakpoint := none, BreakpointConditionMet := false,
    BreakpointConditionError := none }

/-- Concrete breakpoint the resume witness thread is stopped at. -/
def bpR : Breakpoint :=
  { Addr := 64, File := "main.go", Line := 7, FunctionName := "main.f",
    Temp := false, HitCount := [], TotalHitCount := 0 }

/-- Concrete thread stopped at `bpR` for the resume witness. -/
def thR : ResumeThread :=
  { CurrentBreakpoint := some bpR, BreakpointConditionMet := true,
    BreakpointConditionError := none, running := false, singleStepping := false }

/-- Resume oracle whose reinstatement fails. -/
def envRA : REnv :=
  { clearErr := none, reinstallErr := some "restore failed",
    stepErr := some "step trap", resumeErr := none }

/-- Resume oracle identical to `envRA` except that reinstatement succeeds. -/
def envRB : REnv :=
  { clearErr := none, reinstallErr := none,
    stepErr := some "step trap", resumeErr := none }

/-- Concrete frame descriptor for the goroutine-exit witness: nothing in
the frame covers any candidate PC. -/
def fdeG : FDE := { Begin := 4096, End := 4200, Cover := fun _ => false }

/-- Concrete current location for the goroutine-exit witness. -/
def locG : Location := { PC := 4100, File := "main.go", Line := 12, Fn := none }

/-- Concrete stepping oracle for the goroutine-exit witness: no candidate
PCs, no deferred call, the return address resolves to `runtime.goexit`,
the goroutine id is 7. -/
def envG : Env :=
  { blocked := false,
    locationOf := Except.ok locG,
    fdeForPC := fun _ => Except.ok fdeG,
    allPCsBetween := fun _ _ _ => [],
    pcToLine := fun _ => ("main.go", 0),
    lineToPC := fun _ _ => none,
    intWidth := 64,
    pcToFunc := fun _ => some { Name := "runtime.goexit" },
    getG := Except.ok { ID := 7, DeferPC := 0 },
    returnAddress := Except.ok 9000,
    install := setTempBreakpointModel }

/-- Concrete frame descriptor `[0, 10)` for the range comparison. -/
def fdeC : FDE := { Begin := 0, End := 10, Cover := fun _ => true }

/-- Concrete current location for the range comparison. -/
def locC : Location := { PC := 50, File := "f.go", Line := 1, Fn := none }

/-- Concrete stepping oracle for the range comparison: the line-table query
answers `[4, 10]` when the upper bound is 10 and `[4]` for any other upper
bound, so it distinguishes the bound `fde.End()` from `fde.End()-1`. -/
def envC : Env :=
  { blocked := false,
    locationOf := Except.ok locC,
    fdeForPC := fun _ => Except.ok fdeC,
    allPCsBetween := fun _ e _ => if e = 10 then [4, 10] else [4],
    pcToLine := fun _ => ("f.go", 1),
    lineToPC := fun _ _ => none,
    intWidth := 64,
    pcToFunc := fun _ => none,
    getG := Except.ok { ID := 1, DeferPC := 0 },
    returnAddress := Except.ok 100,
    install := setTempBreakpointModel }

/-- Concrete stepping oracle for the blocked-thread witness: the thread is
parked in the scheduler and every other collaborator would fail. -/
def envBlk : Env :=
  { blocked := true,
    locationOf := Except.error "unused",
    fdeForPC := fun _ => Except.error "unused",
    allPCsBetween := fun _ _ _ => [],
    pcToLine := fun _ => ("", 0),
    lineToPC := fun _ _ => none,
    intWidth := 64,
    pcToFunc := fun _ => none,
    getG := Except.error "unused",
    returnAddress := Except.error "unused",
    install := setTempBreakpointModel }

/-- Concrete table for the blocked-thread witness. -/
def tblBlk : BpTable := [(5, tempBpAt 5)]

/-- Concrete installer that always reports an existing breakpoint. -/
def instE : Nat → BpTable → Except InstallErr BpTable :=
  fun _ _ => Except.error InstallErr.bpExists

/-- Concrete stepping oracle for the deferred-line scan on a 32-bit `int`
build: the deferred-call PC's line is `intMax 32 - 1 = 2147483646`, and the
only line with a valid PC is `intMin 32 = -2147483648`, which lies below
the start line and is reached by the loop only through the wrap-around of
`lineno++` past `intMax 32`. -/
def envScanC : Env :=
  { blocked := false,
    locationOf := Except.error "unused",
    fdeForPC := fun _ => Except.error "unused",
    allPCsBetween := fun _ _ _ => [],
    pcToLine := fun _ => ("lib.go", 2147483646),
    lineToPC := fun _ v => if v = -2147483648 then some 77 else none,
    intWidth := 32,
    pcToFunc := fun _ => none,
    getG := Except.ok { ID := 2, DeferPC := 0 },
    returnAddress := Except.ok 100,
    install := setTempBreakpointModel }

/-- Erasing a key removes it from lookup. -/
lemma bpLookup_bpErase_self (k : Nat) : ∀ tbl : BpTable, bpLookup (bpErase tbl k) k = none := by
  intro tbl
  induction tbl with
  | nil => rfl
  | cons kv rest ih =>
    by_cases h : kv.1 = k
    · simp [bpErase, h, ih]
    · simp [bpErase, bpLookup, h, ih]

/-- Erasing a key leaves every other key's lookup unchanged. -/
lemma bpLookup_bpErase_ne (k q : Nat) (h : q ≠ k) :
    ∀ tbl : BpTable, bpLookup (bpErase tbl k) q = bpLookup tbl q := by
  intro tbl
  induction tbl with
  | nil => rfl
  | cons kv rest ih =>
    simp only [bpErase, bpLookup]
    by_cases hk : kv.1 = k
    · have hq : ¬kv.1 = q := by rw [hk]; exact fun hc => h hc.symm
      rw [if_pos hk, if_neg hq, ih]
    · rw [if_neg hk]
      by_cases hq : kv.1 = q
      · simp only [bpLookup]
        rw [if_pos hq, if_pos hq]
      · simp only [bpLookup]
        rw [if_neg hq, if_neg hq, ih]

/-- Inserting a key makes its lookup return the inserted value. -/
lemma bpLookup_bpInsert_self (tbl : BpTable) (k : Nat) (v : Breakpoint) :
    bpLookup (bpInsert tbl k v) k = some v := by
  simp [bpInsert, bpLookup]

/-- Inserting a key leaves every other key's lookup unchanged. -/
lemma bpLookup_bpInsert_ne (tbl : BpTable) (k : Nat) (v : Breakpoint) (q : Nat)
    (h : q ≠ k) : bpLookup (bpInsert tbl k v) q = bpLookup tbl q := by
  have hk : ¬k = q := fun hc => h hc.symm
  simp [bpInsert, bpLookup, hk, bpLookup_bpErase_ne k q h tbl]

/-- Updating through the table entry composes with lookup at the same key. -/
lemma bpLookup_bpUpdate_self (k : Nat) (f : Breakpoint → Breakpoint) :
    ∀ tbl : BpTable, bpLookup (bpUpdate tbl k f) k = (bpLookup tbl k).map f := by
  intro tbl
  induction tbl with
  | nil => rfl
  | cons kv rest ih =>
    by_cases h : kv.1 = k
    · simp [bpUpdate, bpLookup, h]
    · simp [bpUpdate, bpLookup, h, ih]

/-- Erasing a counter key leaves every other counter unchanged. -/
lemma hmGet_hmErase_ne (k q : Int) (h : q ≠ k) :
    ∀ m : List (Int × Nat), hmGet (hmErase m k) q = hmGet m q := by
  intro m
  induction m with
  | nil => rfl
  | cons kv rest ih =>
    simp only [hmErase, hmGet]
    by_cases hk : kv.1 = k
    · have hq : ¬kv.1 = q := by rw [hk]; exact fun hc => h hc.symm
      rw [if_pos hk, if_neg hq, ih]
    · rw [if_neg hk]
      by_cases hq : kv.1 = q
      · simp only [hmGet]
        rw [if_pos hq, if_pos hq]
      · simp only [hmGet]
        rw [if_neg hq, if_neg hq, ih]

/-- The Go map increment raises the incremented key's counter by one. -/
lemma hmGet_hmInc_self (m : List (Int × Nat)) (k : Int) :
    hmGet (hmInc m k) k = hmGet m k + 1 := by
  simp [hmInc, hmGet]

/-- The Go map increment leaves every other counter unchanged. -/
lemma hmGet_hmInc_ne (m : List (Int × Nat)) (k q : Int) (h : q ≠ k) :
    hmGet (hmInc m k) q = hmGet m q := by
  have hk : ¬k = q := fun hc => h hc.symm
  simp [hmInc, hmGet, hk, hmGet_hmErase_ne k q h m]

/-- Wrap-around subtraction inverts addition below the `uint64` modulus. -/
lemma u64sub_add_self (a s : Nat) (h : a + s < U64LIM) :
    u64sub ((a + s) % U64LIM) s = a := by
  have hs : s < U64LIM := lt_of_le_of_lt (Nat.le_add_left s a) h
  have hsm : s % U64LIM = s := Nat.mod_eq_of_lt hs
  have h1 : (a + s) % U64LIM = a + s := Nat.mod_eq_of_lt h
  rw [u64sub, h1, hsm]
  have h2 : a + s + (U64LIM - s) = a + U64LIM := by omega
  rw [h2, Nat.add_mod_right]
  exact Nat.mod_eq_of_lt (by omega)

/-- The representable range of a Go `int` is nonempty. -/
lemma intMin_le_intMax (W : Nat) : intMin W ≤ intMax W := by
  have h0 : (0 : Int) < 2 ^ (W - 1) := pow_pos (by norm_num) (W - 1)
  rw [intMin, intMax]
  omega

/-- The wrapping increment stays inside the representable range. -/
lemma inRange_intSucc (W : Nat) (v : Int) (h : inRange W v) :
    inRange W (intSucc W v) := by
  have h0 : (0 : Int) < 2 ^ (W - 1) := pow_pos (by norm_num) (W - 1)
  obtain ⟨h1, h2⟩ := h
  by_cases hv : v = intMax W
  · rw [intSucc, if_pos hv]
    exact ⟨le_refl _, intMin_le_intMax W⟩
  · rw [intSucc, if_neg hv]
    rw [intMax] at hv h2
    rw [intMin] at h1
    exact ⟨by rw [intMin]; omega, by rw [intMax]; omega⟩

/-- A successful bounded scan exhibits a representable line with a valid
PC (the probes are wrapping increments of the in-range start line). -/
lemma scanLine_some_inRange (W : Nat) (L : String → Int → Option Nat)
    (f : String) :
    ∀ (fuel : Nat) (l : Int), inRange W l →
      (scanLine W L f l fuel).isSome = true →
      ∃ v : Int, inRange W v ∧ (L f v).isSome = true := by
  intro fuel
  induction fuel with
  | zero => intro l _ h; simp [scanLine] at h
  | succ k ih =>
    intro l hl h
    cases hL : L f (intSucc W l) with
    | some dpc => exact ⟨intSucc W l, inRange_intSucc W l hl, by rw [hL]; rfl⟩
    | none =>
      simp only [scanLine, hL] at h
      exact ih (intSucc W l) (inRange_intSucc W l hl) h

/-- If the `k`-th wrapping increment of the start line has a valid PC, any
fuel of at least `k` probes makes the scan succeed. -/
lemma scanLine_hits (W : Nat) (L : String → Int → Option Nat) (f : String) :
    ∀ (fuel k : Nat) (l : Int), 1 ≤ k → k ≤ fuel →
      (L f (iterSucc W k l)).isSome = true →
      (scanLine W L f l fuel).isSome = true := by
  intro fuel
  induction fuel with
  | zero => intro k l hk1 hk2 _; omega
  | succ m ih =>
    intro k l hk1 hk2 hs
    cases hL : L f (intSucc W l) with
    | some dpc => simp [scanLine, hL]
    | none =>
      simp only [scanLine, hL]
      cases k with
      | zero => omega
      | succ k2 =>
        cases k2 with
        | zero =>
          exfalso
          rw [show iterSucc W 1 l = intSucc W l from rfl, hL] at hs
          simp at hs
        | succ k3 =>
          exact ih (k3 + 1) (intSucc W l) (by omega) (by omega) hs

/-- Iterating the wrapping increment for the cyclic distance from `l` to
`v` (through the wrap when `v ≤ l`) lands exactly on `v`. -/
lemma iterSucc_reaches (W : Nat) :
    ∀ (d : Nat) (l v : Int), inRange W l → inRange W v → 1 ≤ d →
      (v - l = (d : Int) ∨ v - l + 2 * 2 ^ (W - 1) = (d : Int)) →
      iterSucc W d l = v := by
  intro d
  induction d with
  | zero => intro l v _ _ h1 _; omega
  | succ d ih =>
    intro l v hl hv _ hd
    have hM : (0 : Int) < 2 ^ (W - 1) := pow_pos (by norm_num) (W - 1)
    have hl2 := hl
    have hv2 := hv
    obtain ⟨hla, hlb⟩ := hl2
    obtain ⟨hva, hvb⟩ := hv2
    rw [intMin] at hla hva
    rw [intMax] at hlb hvb
    by_cases hd0 : d = 0
    · subst hd0
      show intSucc W l = v
      by_cases hmax : l = intMax W
      · rw [intSucc, if_pos hmax, intMin]
        rw [intMax] at hmax
        push_cast at hd
        omega
      · rw [intSucc, if_neg hmax]
        rw [intMax] at hmax
        push_cast at hd
        omega
    · show iterSucc W d (intSucc W l) = v
      refine ih (intSucc W l) v (inRange_intSucc W l hl) hv (by omega) ?_
      by_cases hmax : l = intMax W
      · rw [intSucc, if_pos hmax, intMin]
        rw [intMax] at hmax
        push_cast at hd ⊢
        omega
      · rw [intSucc, if_neg hmax]
        rw [intMax] at hmax
        push_cast at hd ⊢
        omega

/-- For any two representable values there is a positive cyclic distance,
at most one full cycle, whose iterated increment connects them. -/
lemma iterSucc_exists (W : Nat) (l v : Int) (hl : inRange W l)
    (hv : inRange W v) :
    ∃ d : Nat, 1 ≤ d ∧ (d : Int) ≤ 2 * 2 ^ (W - 1) ∧ iterSucc W d l = v := by
  have hM : (0 : Int) < 2 ^ (W - 1) := pow_pos (by norm_num) (W - 1)
  have hl2 := hl
  have hv2 := hv
  obtain ⟨hla, hlb⟩ := hl2
  obtain ⟨hva, hvb⟩ := hv2
  rw [intMin] at hla hva
  rw [intMax] at hlb hvb
  by_cases hgt : l < v
  · exact ⟨(v - l).toNat, by omega, by omega,
      iterSucc_reaches W (v - l).toNat l v hl hv (by omega) (Or.inl (by omega))⟩
  · exact ⟨(v - l + 2 * 2 ^ (W - 1)).toNat, by omega, by omega,
      iterSucc_reaches W (v - l + 2 * 2 ^ (W - 1)).toNat l v hl hv (by omega)
        (Or.inr (by omega))⟩

/-- One full cycle of fuel makes the scan find any representable valid
line, wherever it lies relative to the start line. -/
lemma scanLine_complete_wrap (W : Nat) (L : String → Int → Option Nat)
    (f : String) (l v : Int) (hl : inRange W l) (hv : inRange W v)
    (hs : (L f v).isSome = true) :
    (scanLine W L f l (2 * 2 ^ (W - 1))).isSome = true := by
  obtain ⟨d, hd1, hd2, hd3⟩ := iterSucc_exists W l v hl hv
  refine scanLine_hits W L f (2 * 2 ^ (W - 1)) d l hd1 ?_ (by rw [hd3]; exact hs)
  have hc : ((2 * 2 ^ (W - 1) : Nat) : Int) = 2 * 2 ^ (W - 1) := by push_cast; ring
  omega

/-- Every address in the instrumentation log of the installer loop either
was already logged or is a candidate distinct from the two skip addresses. -/
lemma setNTB_log_mem (curpc : Nat) :
    ∀ (pcs log : List Nat) (a : Nat),
      a ∈ (setNextTempBreakpoints logInst curpc pcs log).2 →
      a ∈ log ∨ (a ≠ curpc ∧ a ≠ u64sub curpc 1) := by
  intro pcs
  induction pcs with
  | nil =>
    intro log a h
    simp only [setNextTempBreakpoints] at h
    exact Or.inl h
  | cons p rest ih =>
    intro log a h
    by_cases hp : p = curpc ∨ p = u64sub curpc 1
    · simp only [setNextTempBreakpoints, if_pos hp] at h
      exact ih log a h
    · simp only [setNextTempBreakpoints, if_neg hp, logInst] at h
      rcases ih (log ++ [p]) a h with hmem | hok
      · rcases List.mem_append.mp hmem with h1 | h2
        · exact Or.inl h1
        · have hap : a = p := by simpa using h2
          subst hap
          push_neg at hp
          exact Or.inr hp
      · exact Or.inr hok

/-- With the table installer, the installer loop leaves the lookup of each
skipped address unchanged. -/
lemma setNTB_model_lookup (curpc q : Nat) (hq : q = curpc ∨ q = u64sub curpc 1) :
    ∀ (pcs : List Nat) (tbl : BpTable),
      bpLookup (setNextTempBreakpoints setTempBreakpointModel curpc pcs tbl).2 q
        = bpLookup tbl q := by
  intro pcs
  induction pcs with
  | nil => intro tbl; rfl
  | cons p rest ih =>
    intro tbl
    by_cases hp : p = curpc ∨ p = u64sub curpc 1
    · simp only [setNextTempBreakpoints, if_pos hp]
      exact ih tbl
    · simp only [setNextTempBreakpoints, if_neg hp]
      cases hl : bpLookup tbl p with
      | some b =>
        simp only [setTempBreakpointModel, hl]
        exact ih tbl
      | none =>
        simp only [setTempBreakpointModel, hl]
        rw [ih (bpInsert tbl p (tempBpAt p))]
        exact bpLookup_bpInsert_ne tbl p (tempBpAt p) q (fun hqp => hp (hqp ▸ hq))

/-- Claim C7: for every thread that is blocked (parked in the runtime
scheduler), `setNextBreakpoints` returns `ThreadBlockedError` and installs
no breakpoints — the breakpoint table is unchanged on this error path. -/
theorem setNextBreakpoints_blocked (fuel : Nat) (env : Env) (tbl : BpTable)
    (h : env.blocked = true) :
    setNextBreakpoints fuel env tbl = some (some NErr.threadBlocked, tbl) := by
  simp [setNextBreakpoints, h]

/-- Witness for claim C7 at the concrete blocked oracle `envBlk`: the
result is `ThreadBlockedError` with the table `tblBlk` untouched. -/
theorem setNextBreakpoints_blocked_witness :
    setNextBreakpoints 0 envBlk tblBlk = some (some NErr.threadBlocked, tblBlk) :=
  setNextBreakpoints_blocked 0 envBlk tblBlk rfl

/-- Claim C5: for every candidate-PC set and current PC, the temporary
breakpoint installation loop shared by `next` and `cnext` never installs a
breakpoint at the current PC or at current PC minus one (with `uint64`
wrap-around): the instrumentation log of installer calls never contains
either address, and under the table installer the lookups at both
addresses are untouched, for every element of the candidate set. -/
theorem setNextTempBreakpoints_skips_current (curpc : Nat) (pcs : List Nat)
    (tbl : BpTable) :
    (curpc ∉ (setNextTempBreakpoints logInst curpc pcs []).2
      ∧ u64sub curpc 1 ∉ (setNextTempBreakpoints logInst curpc pcs []).2)
    ∧ (bpLookup (setNextTempBreakpoints setTempBreakpointModel curpc pcs tbl).2 curpc
        = bpLookup tbl curpc
      ∧ bpLookup (setNextTempBreakpoints setTempBreakpointModel curpc pcs tbl).2
          (u64sub curpc 1)
        = bpLookup tbl (u64sub curpc 1)) := by
  refine ⟨⟨?_, ?_⟩, setNTB_model_lookup curpc curpc (Or.inl rfl) pcs tbl,
    setNTB_model_lookup curpc (u64sub curpc 1) (Or.inr rfl) pcs tbl⟩
  · intro hmem
    rcases setNTB_log_mem curpc pcs [] curpc hmem with h | h
    · simp at h
    · exact h.1 rfl
  · intro hmem
    rcases setNTB_log_mem curpc pcs [] (u64sub curpc 1) hmem with h | h
    · simp at h
    · exact h.2 rfl

/-- Claim C8: at a non-skipped step-target address, a `BreakpointExists`
failure of the temp-breakpoint installer is swallowed and the loop
continues with the remaining targets unchanged, while any other
installation error is propagated immediately. -/
theorem setNextTempBreakpoints_tolerates {σ : Type}
    (inst : Nat → σ → Except InstallErr σ) (curpc p : Nat) (rest : List Nat)
    (st : σ) (hp : p ≠ curpc ∧ p ≠ u64sub curpc 1) :
    (inst p st = Except.error InstallErr.bpExists →
        setNextTempBreakpoints inst curpc (p :: rest) st
          = setNextTempBreakpoints inst curpc rest st)
    ∧ ∀ e : Err, inst p st = Except.error (InstallErr.other e) →
        setNextTempBreakpoints inst curpc (p :: rest) st = (some (NErr.infra e), st) := by
  have hps : ¬(p = curpc ∨ p = u64sub curpc 1) := by
    rintro (hc | hc)
    · exact hp.1 hc
    · exact hp.2 hc
  constructor
  · intro h
    simp only [setNextTempBreakpoints, if_neg hps, h]
  · intro e h
    simp only [setNextTempBreakpoints, if_neg hps, h]

/-- Witness for claim C8 with the concrete always-occupied installer
`instE` at target 7 (current PC 5): the loop outcome equals the loop on
the remaining targets, and the other-error branch holds vacuously. -/
theorem setNextTempBreakpoints_tolerates_witness :
    (instE 7 ([] : BpTable) = Except.error InstallErr.bpExists →
        setNextTempBreakpoints instE 5 (7 :: [9]) ([] : BpTable)
          = setNextTempBreakpoints instE 5 [9] ([] : BpTable))
    ∧ ∀ e : Err, instE 7 ([] : BpTable) = Except.error (InstallErr.other e) →
        setNextTempBreakpoints instE 5 (7 :: [9]) ([] : BpTable)
          = (some (NErr.infra e), ([] : BpTable)) :=
  setNextTempBreakpoints_tolerates instE 5 7 [9] [] ⟨by decide, by decide⟩

/-- Counterexample to claim C9 as stated: on a 32-bit `int` build
(`envScanC`), the deferred-call PC's line is 2147483646 and no line number
strictly greater than it maps to a valid PC — yet the scan terminates
after two probes, because `lineno++` wraps past `intMax 32` to
`intMin 32 = -2147483648`, where `LineToPC` succeeds.  The "loop never
ends without a strictly greater valid line" direction is therefore false
of the wrapping Go loop. -/
theorem deferScan_wrap_counterexample :
    (∀ n : Int, (envScanC.pcToLine 0).2 < n →
        envScanC.lineToPC (envScanC.pcToLine 0).1 n = none)
    ∧ (scanLine envScanC.intWidth envScanC.lineToPC (envScanC.pcToLine 0).1
        (envScanC.pcToLine 0).2 2).isSome = true := by
  constructor
  · intro n hn
    simp only [envScanC] at hn ⊢
    rw [if_neg (by omega)]
  · decide

/-- Claim C9 (amended): the forward line-by-line scan that `next` runs
from the deferred-call PC terminates if and only if some line value
representable in the platform's Go `int` maps to a valid PC in that PC's
file — not only lines strictly greater than the start line, since the
wrapping increment cycles through every representable value; whenever
some representable line is valid, one full cycle of fuel
(`2 * 2 ^ (width - 1)` probes) suffices, and with no representable valid
line the loop never ends. -/
theorem deferScan_wrap_terminates (env : Env) (deferPC : Nat)
    (hl : inRange env.intWidth (env.pcToLine deferPC).2) :
    ((∃ fuel : Nat,
        (scanLine env.intWidth env.lineToPC (env.pcToLine deferPC).1
          (env.pcToLine deferPC).2 fuel).isSome = true)
      ↔ (∃ v : Int, inRange env.intWidth v
          ∧ (env.lineToPC (env.pcToLine deferPC).1 v).isSome = true))
    ∧ ∀ v : Int, inRange env.intWidth v →
        (env.lineToPC (env.pcToLine deferPC).1 v).isSome = true →
        (scanLine env.intWidth env.lineToPC (env.pcToLine deferPC).1
          (env.pcToLine deferPC).2 (2 * 2 ^ (env.intWidth - 1))).isSome = true := by
  constructor
  · constructor
    · rintro ⟨fuel, hk⟩
      exact scanLine_some_inRange env.intWidth env.lineToPC
        (env.pcToLine deferPC).1 fuel (env.pcToLine deferPC).2 hl hk
    · rintro ⟨v, hv, hs⟩
      exact ⟨2 * 2 ^ (env.intWidth - 1),
        scanLine_complete_wrap env.intWidth env.lineToPC
          (env.pcToLine deferPC).1 (env.pcToLine deferPC).2 v hl hv hs⟩
  · intro v hv hs
    exact scanLine_complete_wrap env.intWidth env.lineToPC
      (env.pcToLine deferPC).1 (env.pcToLine deferPC).2 v hl hv hs

/-- Witness for the amended claim C9 at the concrete 32-bit oracle
`envScanC`, whose start line 2147483646 is representable. -/
theorem deferScan_wrap_terminates_witness :
    ((∃ fuel : Nat,
        (scanLine envScanC.intWidth envScanC.lineToPC (envScanC.pcToLine 0).1
          (envScanC.pcToLine 0).2 fuel).isSome = true)
      ↔ (∃ v : Int, inRange envScanC.intWidth v
          ∧ (envScanC.lineToPC (envScanC.pcToLine 0).1 v).isSome = true))
    ∧ ∀ v : Int, inRange envScanC.intWidth v →
        (envScanC.lineToPC (envScanC.pcToLine 0).1 v).isSome = true →
        (scanLine envScanC.intWidth envScanC.lineToPC (envScanC.pcToLine 0).1
          (envScanC.pcToLine 0).2
          (2 * 2 ^ (envScanC.intWidth - 1))).isSome = true :=
  deferScan_wrap_terminates envScanC 0 (by decide)

/-- Claim C2: for every resume that starts with the thread stopped at a
breakpoint and whose trap clear succeeds, the event trace clears the trap
strictly before the execution event and ends with the scheduled
reinstatement, in both modes; and the returned value is exactly the
selected step primitive's outcome, identical under any change to the
reinstatement oracle's result. -/
theorem threadResume_breakpoint_protocol (env env' : REnv) (th : ResumeThread)
    (bp : Breakpoint) (mode : ResumeMode) (sig : Int)
    (hbp : th.CurrentBreakpoint = some bp)
    (hclear : env.clearErr = none)
    (hc : env'.clearErr = env.clearErr)
    (hs : env'.stepErr = env.stepErr)
    (hr : env'.resumeErr = env.resumeErr) :
    (threadResume env th mode sig).2.2
        = [REvent.clearTrap bp.Addr, resumeExecEvent mode sig, REvent.reinstall bp.Addr]
    ∧ (threadResume env th mode sig).1 = resumeOutcome env mode
    ∧ (threadResume env th mode sig).1 = (threadResume env' th mode sig).1 := by
  have hclear' : env'.clearErr = none := by rw [hc, hclear]
  cases mode <;>
    simp [threadResume, hbp, hclear, hclear', resumeExecEvent, resumeOutcome, hs, hr]

/-- Witness for claim C2 at concrete inputs: thread `thR` stopped at the
breakpoint at address 64, step-instruction mode, with `envRA` (whose
reinstatement fails) and `envRB` (whose reinstatement succeeds) agreeing
on everything else: the traces and the returned value coincide. -/
theorem threadResume_breakpoint_protocol_witness :
    (threadResume envRA thR ResumeMode.ModeStepInstruction 0).2.2
        = [REvent.clearTrap 64, resumeExecEvent ResumeMode.ModeStepInstruction 0,
           REvent.reinstall 64]
    ∧ (threadResume envRA thR ResumeMode.ModeStepInstruction 0).1
        = resumeOutcome envRA ResumeMode.ModeStepInstruction
    ∧ (threadResume envRA thR ResumeMode.ModeStepInstruction 0).1
        = (threadResume envRB thR ResumeMode.ModeStepInstruction 0).1 :=
  threadResume_breakpoint_protocol envRA envRB thR bpR
    ResumeMode.ModeStepInstruction 0 rfl rfl rfl rfl rfl

/-- Claim C3: for every thread whose program counter equals a table
breakpoint's address plus the trap-instruction size (below the `uint64`
modulus), `SetCurrentBreakpoint` with successful register access records
that breakpoint as the thread's `CurrentBreakpoint` and rewinds the
thread's PC to the breakpoint's original address. -/
theorem SetCurrentBreakpoint_resolves (env : SCBEnv) (th : Thread) (tbl : BpTable)
    (bp : Breakpoint)
    (hpc : env.pcReadErr = none)
    (hofl : bp.Addr + env.BreakpointSize < U64LIM)
    (hat : th.pc = (bp.Addr + env.BreakpointSize) % U64LIM)
    (hbp : bpLookup tbl bp.Addr = some bp)
    (hset : env.setPCErr = none) :
    (SetCurrentBreakpoint env th tbl).2.1.CurrentBreakpoint = some bp.Addr
    ∧ (SetCurrentBreakpoint env th tbl).2.1.pc = bp.Addr := by
  have hkey : u64sub th.pc env.BreakpointSize = bp.Addr := by
    rw [hat]
    exact u64sub_add_self bp.Addr env.BreakpointSize hofl
  constructor
  · simp only [SetCurrentBreakpoint, hpc, hkey, hbp, hset]
    split <;> rfl
  · simp only [SetCurrentBreakpoint, hpc, hkey, hbp, hset]
    split <;> rfl

/-- Witness for claim C3: thread `thW` stopped at 101 with trap size 1 and
breakpoint `bpW` at 100 resolves `CurrentBreakpoint` to the entry at 100
and rewinds the PC to 100. -/
theorem SetCurrentBreakpoint_resolves_witness :
    (SetCurrentBreakpoint envSCBW thW tblW).2.1.CurrentBreakpoint = some 100
    ∧ (SetCurrentBreakpoint envSCBW thW tblW).2.1.pc = 100 :=
  SetCurrentBreakpoint_resolves envSCBW thW tblW bpW rfl (by decide) (by decide)
    (by decide) rfl

/-- Claim C10: for every thread whose program counter minus the
trap-instruction size is not a key of the breakpoint table,
`SetCurrentBreakpoint` returns no error and leaves all state unchanged:
the thread (its `CurrentBreakpoint`, condition fields and PC) and the
whole breakpoint table, hence every counter, keep their prior values. -/
theorem SetCurrentBreakpoint_miss_noop (env : SCBEnv) (th : Thread) (tbl : BpTable)
    (hpc : env.pcReadErr = none)
    (hmiss : bpLookup tbl (u64sub th.pc env.BreakpointSize) = none) :
    SetCurrentBreakpoint env th tbl = (none, th, tbl) := by
  simp only [SetCurrentBreakpoint, hpc, hmiss]

/-- Witness for claim C10: thread `thMiss` at PC 555 misses the table
`tblW` (whose only key is 100) and nothing changes. -/
theorem SetCurrentBreakpoint_miss_noop_witness :
    SetCurrentBreakpoint envSCBW thMiss tblW = (none, thMiss, tblW) :=
  SetCurrentBreakpoint_miss_noop envSCBW thMiss tblW rfl (by decide)

/-- Claim C4: in `SetCurrentBreakpoint` with a table hit and successful
register access, the breakpoint's total hit counter and the resolved
goroutine's per-goroutine counter increment exactly once when and only
when the condition evaluates true; a false or erroring condition changes
no counter at all, and a failed goroutine resolution skips only the
per-goroutine increment while the total counter still increments. -/
theorem SetCurrentBreakpoint_hit_counters (env : SCBEnv) (th : Thread)
    (tbl : BpTable) (key : Nat) (bp : Breakpoint)
    (hpc : env.pcReadErr = none)
    (hkey : key = u64sub th.pc env.BreakpointSize)
    (hbp : bpLookup tbl key = some bp)
    (hset : env.setPCErr = none) :
    (env.cond = CondResult.ctrue →
        totalOf (SetCurrentBreakpoint env th tbl).2.2 key = totalOf tbl key + 1
        ∧ (∀ g : G, env.getG = Except.ok g →
            hitOf (SetCurrentBreakpoint env th tbl).2.2 key g.ID
              = hitOf tbl key g.ID + 1
            ∧ ∀ gid : Int, gid ≠ g.ID →
                hitOf (SetCurrentBreakpoint env th tbl).2.2 key gid
                  = hitOf tbl key gid)
        ∧ (∀ e : Err, env.getG = Except.error e →
            ∀ gid : Int, hitOf (SetCurrentBreakpoint env th tbl).2.2 key gid
              = hitOf tbl key gid))
    ∧ (env.cond ≠ CondResult.ctrue → (SetCurrentBreakpoint env th tbl).2.2 = tbl) := by
  subst hkey
  constructor
  · intro hcond
    have hscb : (SetCurrentBreakpoint env th tbl).2.2
        = bpBumpTotal
            (match env.getG with
              | Except.ok g => bpBumpHit tbl (u64sub th.pc env.BreakpointSize) g.ID
              | Except.error _ => tbl)
            (u64sub th.pc env.BreakpointSize) := by
      simp [SetCurrentBreakpoint, hpc, hbp, hset, hcond, onTriggeredBreakpoint,
        CondResult.met]
    refine ⟨?_, ?_, ?_⟩
    · cases hg : env.getG with
      | ok g =>
        rw [hscb, hg]
        simp only [totalOf, bpBumpTotal, bpBumpHit, bpLookup_bpUpdate_self, hbp]
        rfl
      | error e =>
        rw [hscb, hg]
        simp only [totalOf, bpBumpTotal, bpLookup_bpUpdate_self, hbp]
        rfl
    · intro g hg
      rw [hscb, hg]
      constructor
      · simp only [hitOf, bpBumpTotal, bpBumpHit, bpLookup_bpUpdate_self, hbp,
          Option.map_some]
        exact hmGet_hmInc_self bp.HitCount g.ID
      · intro gid hgid
        simp only [hitOf, bpBumpTotal, bpBumpHit, bpLookup_bpUpdate_self, hbp,
          Option.map_some]
        exact hmGet_hmInc_ne bp.HitCount g.ID gid hgid
    · intro e he gid
      rw [hscb, he]
      simp only [hitOf, bpBumpTotal, bpLookup_bpUpdate_self, hbp]
      rfl
  · intro hne
    cases hcond : env.cond with
    | ctrue => exact absurd hcond hne
    | cfalse =>
      simp [SetCurrentBreakpoint, hpc, hbp, hset, hcond, onTriggeredBreakpoint,
        CondResult.met]
    | cerror e =>
      simp [SetCurrentBreakpoint, hpc, hbp, hset, hcond, onTriggeredBreakpoint,
        CondResult.met]

/-- Witness for claim C4 at the concrete hit `envSCBW`/`thW`/`tblW` (key
100, condition true, goroutine id 3): the increments happen as stated. -/
theorem SetCurrentBreakpoint_hit_counters_witness :
    (envSCBW.cond = CondResult.ctrue →
        totalOf (SetCurrentBreakpoint envSCBW thW tblW).2.2 100 = totalOf tblW 100 + 1
        ∧ (∀ g : G, envSCBW.getG = Except.ok g →
            hitOf (SetCurrentBreakpoint envSCBW thW tblW).2.2 100 g.ID
              = hitOf tblW 100 g.ID + 1
            ∧ ∀ gid : Int, gid ≠ g.ID →
                hitOf (SetCurrentBreakpoint envSCBW thW tblW).2.2 100 gid
                  = hitOf tblW 100 gid)
        ∧ (∀ e : Err, envSCBW.getG = Except.error e →
            ∀ gid : Int, hitOf (SetCurrentBreakpoint envSCBW thW tblW).2.2 100 gid
              = hitOf tblW 100 gid))
    ∧ (envSCBW.cond ≠ CondResult.ctrue →
        (SetCurrentBreakpoint envSCBW thW tblW).2.2 = tblW) :=
  SetCurrentBreakpoint_hit_counters envSCBW thW tblW 100 bpW rfl (by decide)
    (by decide) rfl

/-- Claim C1: for every call to `next` where the return address resolves
to `runtime.goexit` and none of the collected candidate line-table PCs is
covered by the current frame (with the installer being the table
installer, the goroutine resolving, the return address available, and any
deferred-call scan and install succeeding), `next` fails with
`GoroutineExitingError` carrying the resolved goroutine's id, installs no
return-address breakpoint (the table is untouched at every address other
than the deferred-call PC and the deferred-call step target), and removes
the deferred-call table entry it installed before returning. -/
theorem next_goexit_error (fuel : Nat) (env : Env) (tbl : BpTable)
    (curloc : Location) (fde : FDE) (g : G) (ret dpc : Nat) (fn : Func)
    (tbl2 : BpTable)
    (hinstall : env.install = setTempBreakpointModel)
    (hg : env.getG = Except.ok g)
    (hret : env.returnAddress = Except.ok ret)
    (hfn : env.pcToFunc ret = some fn)
    (hname : fn.Name = "runtime.goexit")
    (hcov : (env.allPCsBetween fde.Begin (u64sub fde.End 1) curloc.File).any
        fde.Cover = false)
    (hscan : g.DeferPC ≠ 0 →
        scanLine env.intWidth env.lineToPC (env.pcToLine g.DeferPC).1
          (env.pcToLine g.DeferPC).2 fuel = some dpc)
    (hinst : g.DeferPC ≠ 0 →
        env.install dpc (bpInsert tbl g.DeferPC fakeBp) = Except.ok tbl2) :
    ∃ tblOut : BpTable,
      next fuel env tbl curloc fde = some (some (NErr.goroutineExiting g.ID), tblOut)
      ∧ (g.DeferPC ≠ 0 → bpLookup tblOut g.DeferPC = none)
      ∧ ∀ a : Nat, a ≠ g.DeferPC → a ≠ dpc → bpLookup tblOut a = bpLookup tbl a := by
  have hrest : ∀ t : BpTable,
      nextRest env t (env.allPCsBetween fde.Begin (u64sub fde.End 1) curloc.File)
          curloc.PC fde
        = (some (NErr.goroutineExiting g.ID), t) := by
    intro t
    simp [nextRest, hret, hcov, isGoexit, hfn, hname, hg]
  by_cases hd : g.DeferPC = 0
  · refine ⟨tbl, ?_, fun h => absurd hd h, fun a _ _ => rfl⟩
    rw [show next fuel env tbl curloc fde
        = some (nextRest env tbl
            (env.allPCsBetween fde.Begin (u64sub fde.End 1) curloc.File)
            curloc.PC fde) from by simp [next, hg, hd]]
    rw [hrest tbl]
  · have hs := hscan hd
    have hi0 := hinst hd
    have hi1 := hi0
    rw [hinstall] at hi1
    cases hl : bpLookup (bpInsert tbl g.DeferPC fakeBp) dpc with
    | some b =>
      exfalso
      rw [setTempBreakpointModel, hl] at hi1
      exact Except.noConfusion hi1
    | none =>
      have htbl2 : tbl2 = bpInsert (bpInsert tbl g.DeferPC fakeBp) dpc (tempBpAt dpc) := by
        rw [setTempBreakpointModel, hl] at hi1
        exact (Except.ok.injEq _ _ ▸ congrArg id hi1).symm
      refine ⟨bpErase tbl2 g.DeferPC, ?_, fun _ => bpLookup_bpErase_self g.DeferPC tbl2, ?_⟩
      · simp only [next, hg, if_neg hd, hs, hi0]
        rw [hrest tbl2]
      · intro a ha1 ha2
        rw [htbl2, bpLookup_bpErase_ne g.DeferPC a ha1,
          bpLookup_bpInsert_ne _ _ _ _ ha2, bpLookup_bpInsert_ne _ _ _ _ ha1]

/-- Witness for claim C1 at the concrete oracle `envG`: no deferred call,
no covered candidate, return address resolving to `runtime.goexit`,
goroutine id 7; `next` fails with `GoroutineExiting 7` and touches
nothing. -/
theorem next_goexit_error_witness :
    ∃ tblOut : BpTable,
      next 1 envG [] locG fdeG = some (some (NErr.goroutineExiting 7), tblOut)
      ∧ ((0 : Nat) ≠ 0 → bpLookup tblOut 0 = none)
      ∧ ∀ a : Nat, a ≠ 0 → a ≠ 0 → bpLookup tblOut a = bpLookup [] a :=
  next_goexit_error 1 envG [] locG fdeG { ID := 7, DeferPC := 0 } 9000 0
    { Name := "runtime.goexit" } [] rfl rfl rfl rfl rfl rfl
    (fun h => absurd rfl h) (fun h => absurd rfl h)

/-- Claim C6 (amended): `cnext` collects its candidate line-table PCs by
querying the provider with bounds `fde.Begin()` to `fde.End()` — upper
bound `fde.End()`, one past the `fde.End()-1` that step (a) of `next`
passes for the same frame — and then appends the return address; `next`
(without a deferred call and with a covered candidate) installs over the
`fde.End()-1`-bounded collection plus the return address. -/
theorem cnext_next_candidates (env : Env) (tbl : BpTable) (curpc : Nat)
    (fde : FDE) (file : String) (ret : Nat)
    (hret : env.returnAddress = Except.ok ret) :
    cnext env tbl curpc fde file
      = setNextTempBreakpoints env.install curpc
          (env.allPCsBetween fde.Begin fde.End file ++ [ret]) tbl
    ∧ ∀ (fuel : Nat) (loc : Location) (g : G),
        env.getG = Except.ok g → g.DeferPC = 0 → loc.File = file →
        (env.allPCsBetween fde.Begin (u64sub fde.End 1) file).any fde.Cover = true →
        next fuel env tbl loc fde
          = some (setNextTempBreakpoints env.install loc.PC
              (env.allPCsBetween fde.Begin (u64sub fde.End 1) file ++ [ret]) tbl) := by
  constructor
  · simp [cnext, hret]
  · intro fuel loc g hg hd hfile hcov
    rw [show next fuel env tbl loc fde
        = some (nextRest env tbl
            (env.allPCsBetween fde.Begin (u64sub fde.End 1) loc.File)
            loc.PC fde) from by simp [next, hg, hd]]
    rw [hfile]
    simp [nextRest, hret, hcov]

/-- Witness for the amended claim C6 at the concrete oracle `envC`:
`cnext` runs the installer loop over the `fde.End()`-bounded candidate
list `[4, 10]` plus the return address 100. -/
theorem cnext_next_candidates_witness :
    cnext envC [] 50 fdeC "f.go"
      = setNextTempBreakpoints envC.install 50
          (envC.allPCsBetween fdeC.Begin fdeC.End "f.go" ++ [100]) [] :=
  (cnext_next_candidates envC [] 50 fdeC "f.go" 100 rfl).1

/-- Counterexample to claim C6 as stated: with the oracle `envC`, whose
line-table query distinguishes upper bound 10 from upper bound 9, frame
`[0, 10)` and current PC 50, `cnext` installs a breakpoint at address 10
while `next` on the same frame, file and current PC does not even
consider it — the two functions do not collect candidates over the same
frame PC range, because `cnext` passes `fde.End()` where `next` passes
`fde.End()-1`. -/
theorem cnext_next_range_counterexample :
    (bpLookup (cnext envC [] 50 fdeC "f.go").2 10).isSome = true
    ∧ (next 1 envC [] locC fdeC).map (fun r => (bpLookup r.2 10).isSome)
        = some false := by
  decide
